import Mathlib

/-!
Shallow embedding of the Codeforces stats dashboard backend (`app.py`).

Only the pure aggregation core is modelled: `calculate_stats`,
`analyze_contests` and `get_user_global_country_rank`.  Python dicts with
optional keys become structures with `Option` fields, `collections.Counter`
becomes an association list updated by `bump`, Python sets become
duplicate-free lists updated by `insertIfAbsent`, and float arithmetic with
`round(x, 2)` is idealised as exact rational arithmetic with banker's
rounding (`round2`), which is the rounding mode of Python's `round`.
-/

namespace CF

/-- The `problem` sub-record of a submission.  `contestId` and `index` are
accessed with `.get` in the source, so they are optional; `rating` likewise;
`tags` defaults to `[]` via `.get('tags', [])`. -/
structure Problem where
  contestId : Option Int
  index : Option String
  rating : Option Int
  tags : List String
deriving DecidableEq

/-- A submission record: the `problem` key is accessed with `sub['problem']`
(required), the `verdict` key with `.get('verdict', 'UNKNOWN')` (optional). -/
structure Submission where
  problem : Problem
  verdict : Option String
deriving DecidableEq

/-- The composite key `(contest_id, problem_index)` built on line 81 of the
source; either component is `None` when the corresponding key is absent. -/
abbrev ProblemID := Option Int × Option String

/-- `problem_id = (problem.get('contestId'), problem.get('index'))`. -/
def keyOf (sub : Submission) : ProblemID :=
  (sub.problem.contestId, sub.problem.index)

/-- `verdict = sub.get('verdict', 'UNKNOWN')`. -/
def verdictOf (sub : Submission) : String :=
  sub.verdict.getD "UNKNOWN"

/-- `Counter[k] += 1` on an association list: the first entry for `k` is
incremented, a missing key is appended with count 1 (dict insertion order). -/
def bump {α : Type} [DecidableEq α] (c : List (α × Nat)) (k : α) : List (α × Nat) :=
  match c with
  | [] => [(k, 1)]
  | (k', n) :: rest => if k' = k then (k', n + 1) :: rest else (k', n) :: bump rest k

/-- `Counter[k]` (0 for an absent key). -/
def lookupCount {α : Type} [DecidableEq α] (c : List (α × Nat)) (k : α) : Nat :=
  match c with
  | [] => 0
  | (k', n) :: rest => if k' = k then n else lookupCount rest k

/-- Association-list lookup, modelling `dict.get` / `k in dict`. -/
def lookupA {α β : Type} [DecidableEq α] (m : List (α × β)) (k : α) : Option β :=
  match m with
  | [] => none
  | (k', v) :: rest => if k' = k then some v else lookupA rest k

/-- `set.add`: Python sets are modelled as duplicate-free lists; a new
element is appended. -/
def insertIfAbsent {α : Type} [DecidableEq α] (s : List α) (x : α) : List α :=
  if x ∈ s then s else s ++ [x]

/-- The mutable accumulators of the `for sub in submissions` loop of
`calculate_stats` (source lines 64-104). -/
structure LoopState where
  accepted_count : Nat
  wrong_answer_count : Nat
  verdict_counter : List (String × Nat)
  attempted_problems : List ProblemID
  solved_problems : List ProblemID
  first_attempt_solved : List ProblemID
  problem_first_submission : List (ProblemID × String)
  contests_participated : List (Option Int)
  difficulty_solved : List (Int × Nat)
  topic_solved : List (String × Nat)
deriving DecidableEq

def initState : LoopState :=
  ⟨0, 0, [], [], [], [], [], [], [], []⟩

/-- One iteration of the loop body of `calculate_stats` (lines 77-104).
The two branches mirror `if verdict == "OK": ... else: ...`; the guard
`if rating:` is Python truthiness, false for both `None` and `0`. -/
def statsStep (st : LoopState) (sub : Submission) : LoopState :=
  let problem := sub.problem
  let contest_id := problem.contestId
  let problem_index := problem.index
  let problem_id : ProblemID := (contest_id, problem_index)
  let attempted := insertIfAbsent st.attempted_problems problem_id
  let contests := insertIfAbsent st.contests_participated contest_id
  let verdict := sub.verdict.getD "UNKNOWN"
  let counter := bump st.verdict_counter verdict
  if verdict = "OK" then
    { st with
      attempted_problems := attempted
      contests_participated := contests
      verdict_counter := counter
      accepted_count := st.accepted_count + 1
      solved_problems := insertIfAbsent st.solved_problems problem_id
      problem_first_submission :=
        if lookupA st.problem_first_submission problem_id = none then
          st.problem_first_submission ++ [(problem_id, verdict)]
        else st.problem_first_submission
      first_attempt_solved :=
        if lookupA st.problem_first_submission problem_id = none then
          insertIfAbsent st.first_attempt_solved problem_id
        else st.first_attempt_solved
      difficulty_solved :=
        match problem.rating with
        | some r => if r ≠ 0 then bump st.difficulty_solved r else st.difficulty_solved
        | none => st.difficulty_solved
      topic_solved := problem.tags.foldl bump st.topic_solved }
  else
    { st with
      attempted_problems := attempted
      contests_participated := contests
      verdict_counter := counter
      wrong_answer_count :=
        if verdict = "WRONG_ANSWER" then st.wrong_answer_count + 1
        else st.wrong_answer_count
      problem_first_submission :=
        if lookupA st.problem_first_submission problem_id = none then
          st.problem_first_submission ++ [(problem_id, verdict)]
        else st.problem_first_submission }

/-- The whole accumulation loop of `calculate_stats`. -/
def statsLoop (submissions : List Submission) : LoopState :=
  submissions.foldl statsStep initState

/-- Round-half-to-even to an integer: the rounding mode of Python `round`. -/
def roundHalfEven (q : ℚ) : ℤ :=
  if q - ⌊q⌋ < 1/2 then ⌊q⌋
  else if q - ⌊q⌋ > 1/2 then ⌊q⌋ + 1
  else if Even ⌊q⌋ then ⌊q⌋ else ⌊q⌋ + 1

/-- Rational model of Python `round(q, 2)`. -/
def round2 (q : ℚ) : ℚ :=
  (roundHalfEven (q * 100) : ℚ) / 100

/-- The second loop of `calculate_stats` (lines 110-113): submission count
per `ProblemID`, a `defaultdict(int)` in insertion order. -/
def problem_attempts (submissions : List Submission) : List (ProblemID × Nat) :=
  submissions.foldl
    (fun m sub => bump m (sub.problem.contestId, sub.problem.index)) []

/-- `str(x)` for the optional components of a `ProblemID`. -/
def pyStrInt : Option Int → String
  | none => "None"
  | some n => toString n

def pyStrIdx : Option String → String
  | none => "None"
  | some s => s

/-- `format_problem` (lines 117-118): `f"{pid[0]}-{pid[1]}"`. -/
def format_problem (pid : ProblemID) : String :=
  pyStrInt pid.1 ++ "-" ++ pyStrIdx pid.2

/-- The dict returned by `calculate_stats` (lines 120-134). -/
structure Stats where
  total_submissions : Nat
  accepted_count : Nat
  wrong_answer_count : Nat
  unique_attempted : Nat
  unique_solved : Nat
  problem_solving_rate : ℚ
  contests_participated : Nat
  first_attempt_solved : Nat
  verdict_counter : List (String × Nat)
  most_attempted_problems : List String
  max_attempts : Nat
  difficulty_solved : List (Int × Nat)
  topic_solved : List (String × Nat)
deriving DecidableEq

/-- `calculate_stats` (source lines 63-134). -/
def calculate_stats (submissions : List Submission) : Stats :=
  let st := statsLoop submissions
  let total_submissions := submissions.length
  let unique_attempted := st.attempted_problems.length
  let unique_solved := st.solved_problems.length
  let problem_solving_rate : ℚ :=
    if unique_attempted ≠ 0 then
      round2 (((unique_solved : ℚ) / (unique_attempted : ℚ)) * 100)
    else 0
  let pa := problem_attempts submissions
  let max_attempts :=
    match (pa.map Prod.snd).max? with
    | some m => m
    | none => 0
  let most_attempted := (pa.filter (fun p => p.2 = max_attempts)).map Prod.fst
  { total_submissions := total_submissions
    accepted_count := st.accepted_count
    wrong_answer_count := st.wrong_answer_count
    unique_attempted := unique_attempted
    unique_solved := unique_solved
    problem_solving_rate := problem_solving_rate
    contests_participated := st.contests_participated.length
    first_attempt_solved := st.first_attempt_solved.length
    verdict_counter := st.verdict_counter
    most_attempted_problems := most_attempted.map format_problem
    max_attempts := max_attempts
    difficulty_solved := st.difficulty_solved
    topic_solved := st.topic_solved }

/-- `RatingChange`: one entry of the `user.rating` result. -/
structure RatingChange where
  contestName : String
  rank : Int
  newRating : Int
deriving DecidableEq

/-- Character-list version of Python's `pat in s` substring test:
`leadsWith pat l` holds when `pat` is an initial segment of `l`. -/
def leadsWith : List Char → List Char → Bool
  | [], _ => true
  | _ :: _, [] => false
  | a :: as, b :: bs => a = b && leadsWith as bs

def containsChars (pat : List Char) : List Char → Bool
  | [] => leadsWith pat []
  | c :: rest => leadsWith pat (c :: rest) || containsChars pat rest

/-- Python `pat in s` on strings. -/
def strContains (s pat : String) : Bool :=
  containsChars pat.toList s.toList

/-- The division-classification chain of `analyze_contests`
(source lines 150-158). -/
def classifyDivision (contest_name : String) : String :=
  if strContains contest_name "Div. 1" then "Div. 1"
  else if strContains contest_name "Div. 2" then "Div. 2"
  else if strContains contest_name "Div. 3" then "Div. 3"
  else "Other"

/-- `if best is None or rank < best: best = rank`, as a fold step. -/
def optMin (o : Option Int) (rank : Int) : Option Int :=
  match o with
  | none => some rank
  | some b => if rank < b then some rank else some b

/-- `if division not in best or rank < best[division]: best[division] = rank`
on an association list kept in dict insertion order. -/
def updateDivRank (m : List (String × Int)) (k : String) (r : Int) :
    List (String × Int) :=
  match m with
  | [] => [(k, r)]
  | (k', b) :: rest =>
    if k' = k then (if r < b then (k', r) :: rest else (k', b) :: rest)
    else (k', b) :: updateDivRank rest k r

/-- The accumulators of the `for entry in rating_changes` loop. -/
structure AnalyzeState where
  best_rank_by_division : List (String × Int)
  highest_rating : Int
  best_rank_overall : Option Int
deriving DecidableEq

/-- One iteration of the loop of `analyze_contests` (lines 144-164). -/
def analyzeStep (st : AnalyzeState) (entry : RatingChange) : AnalyzeState :=
  let division := classifyDivision entry.contestName
  { best_rank_by_division := updateDivRank st.best_rank_by_division division entry.rank
    highest_rating := max st.highest_rating entry.newRating
    best_rank_overall := optMin st.best_rank_overall entry.rank }

/-- The dict returned by `analyze_contests` (lines 166-172). -/
structure ContestStats where
  total_contests : Nat
  contests_skipped : String
  best_rank_by_division : List (String × Int)
  highest_rating : Int
  best_rank_overall : Option Int
deriving DecidableEq

/-- `analyze_contests` (source lines 136-172). -/
def analyze_contests (rating_changes : List RatingChange) : ContestStats :=
  let st := rating_changes.foldl analyzeStep ⟨[], 0, none⟩
  { total_contests := rating_changes.length
    contests_skipped := "Not Available"
    best_rank_by_division := st.best_rank_by_division
    highest_rating := st.highest_rating
    best_rank_overall := st.best_rank_overall }

/-- One entry of the rated-user list: `handle` is accessed with
`u['handle']` (required), `country` with `.get` (optional). -/
structure RatedUser where
  handle : String
  country : Option String
deriving DecidableEq

/-- The fields of `user_info` that `get_user_global_country_rank` reads. -/
structure UserInfo where
  handle : String
  country : Option String
deriving DecidableEq

/-- Python `str.lower()`, modelled as per-character ASCII lowering. -/
def pyLower (s : String) : String :=
  String.mk (s.toList.map Char.toLower)

/-- `u['handle'].lower() == handle.lower()`. -/
def matchesHandle (handle : String) (u : RatedUser) : Bool :=
  pyLower u.handle = pyLower handle

/-- The `for i, u in enumerate(...)` search loops (lines 183-191): the
1-based position of the first element satisfying `p`, `none` if no match. -/
def findPos (p : RatedUser → Bool) : List RatedUser → Option Nat
  | [] => none
  | u :: rest => if p u then some 1 else (findPos p rest).map (· + 1)

/-- The dict returned by `get_user_global_country_rank` (lines 196-202). -/
structure RankStats where
  global_rank : Option Nat
  global_percentile : Option ℚ
  country_rank : Option Nat
  country_percentile : Option ℚ
  country : Option String
deriving DecidableEq

/-- `get_user_global_country_rank` (source lines 174-202).  The percentile
guards `if global_rank` / `if country_rank` are Python truthiness; a found
rank is at least 1, so they coincide with `Option.map`. -/
def get_user_global_country_rank (user_info : UserInfo)
    (rated_users : List RatedUser) : RankStats :=
  let country := user_info.country
  let handle := user_info.handle
  let total_users := rated_users.length
  let country_users := rated_users.filter (fun u => u.country = country)
  let global_rank := findPos (matchesHandle handle) rated_users
  let country_rank := findPos (matchesHandle handle) country_users
  let global_percentile :=
    global_rank.map (fun r : Nat =>
      round2 (100 * (1 - ((r : ℚ) - 1) / (total_users : ℚ))))
  let country_percentile :=
    country_rank.map (fun r : Nat =>
      round2 (100 * (1 - ((r : ℚ) - 1) / (country_users.length : ℚ))))
  { global_rank := global_rank
    global_percentile := global_percentile
    country_rank := country_rank
    country_percentile := country_percentile
    country := country }

/-! ### Container lemmas -/

theorem bump_sum {α : Type} [DecidableEq α] (c : List (α × Nat)) (k : α) :
    ((bump c k).map Prod.snd).sum = (c.map Prod.snd).sum + 1 := by
  induction c with
  | nil => simp [bump]
  | cons p rest ih =>
    obtain ⟨k', n⟩ := p
    by_cases h : k' = k <;> simp [bump, h, ih] <;> omega

theorem lookupCount_bump {α : Type} [DecidableEq α] (c : List (α × Nat)) (k v : α) :
    lookupCount (bump c k) v = lookupCount c v + (if k = v then 1 else 0) := by
  induction c with
  | nil =>
    by_cases h : k = v <;> simp [bump, lookupCount, h]
  | cons p rest ih =>
    obtain ⟨k', n⟩ := p
    by_cases h : k' = k
    · subst h
      by_cases hv : k' = v <;> simp [bump, lookupCount, hv]
    · by_cases hv : k' = v
      · subst hv
        have hk : ¬ k = k' := fun hkk => h hkk.symm
        simp [bump, lookupCount, h, hk]
      · simp [bump, lookupCount, h, hv, ih]

theorem lookupCount_foldl_bump {α : Type} [DecidableEq α]
    (l : List α) (c : List (α × Nat)) (v : α) :
    lookupCount (l.foldl bump c) v = lookupCount c v + l.count v := by
  induction l generalizing c with
  | nil => simp
  | cons a rest ih =>
    simp only [List.foldl_cons, ih, lookupCount_bump, List.count_cons]
    by_cases h : a = v <;> simp [h] <;> omega

theorem mem_insertIfAbsent {α : Type} [DecidableEq α] (s : List α) (x a : α) :
    a ∈ insertIfAbsent s x ↔ a ∈ s ∨ a = x := by
  unfold insertIfAbsent
  by_cases h : x ∈ s
  · simp only [if_pos h]
    constructor
    · exact Or.inl
    · rintro (ha | rfl)
      · exact ha
      · exact h
  · simp [if_neg h]

theorem self_mem_insertIfAbsent {α : Type} [DecidableEq α] (s : List α) (x : α) :
    x ∈ insertIfAbsent s x := by
  rw [mem_insertIfAbsent]; exact Or.inr rfl

theorem subset_insertIfAbsent {α : Type} [DecidableEq α] (s : List α) (x : α) :
    s ⊆ insertIfAbsent s x := by
  intro a ha; rw [mem_insertIfAbsent]; exact Or.inl ha

theorem nodup_insertIfAbsent {α : Type} [DecidableEq α] (s : List α) (x : α)
    (h : s.Nodup) : (insertIfAbsent s x).Nodup := by
  unfold insertIfAbsent
  by_cases hx : x ∈ s
  · simpa [hx] using h
  · simpa [hx, List.nodup_append, h] using hx

theorem toFinset_insertIfAbsent {α : Type} [DecidableEq α] (s : List α) (x : α) :
    (insertIfAbsent s x).toFinset = insert x s.toFinset := by
  unfold insertIfAbsent
  by_cases hx : x ∈ s
  · have : x ∈ s.toFinset := by simpa using hx
    simp [hx, Finset.insert_eq_self.mpr this]
  · ext a
    simp [hx, or_comm]

/-! ### Field projections of `statsStep` -/

theorem statsStep_attempted (st : LoopState) (s : Submission) :
    (statsStep st s).attempted_problems =
      insertIfAbsent st.attempted_problems (keyOf s) := by
  by_cases h : s.verdict.getD "UNKNOWN" = "OK" <;>
    simp [statsStep, keyOf, verdictOf, h]

theorem statsStep_contests (st : LoopState) (s : Submission) :
    (statsStep st s).contests_participated =
      insertIfAbsent st.contests_participated s.problem.contestId := by
  by_cases h : s.verdict.getD "UNKNOWN" = "OK" <;>
    simp [statsStep, verdictOf, h]

theorem statsStep_counter (st : LoopState) (s : Submission) :
    (statsStep st s).verdict_counter = bump st.verdict_counter (verdictOf s) := by
  by_cases h : s.verdict.getD "UNKNOWN" = "OK" <;>
    simp [statsStep, verdictOf, h]

theorem statsStep_accepted (st : LoopState) (s : Submission) :
    (statsStep st s).accepted_count =
      st.accepted_count + (if verdictOf s = "OK" then 1 else 0) := by
  by_cases h : s.verdict.getD "UNKNOWN" = "OK" <;>
    simp [statsStep, verdictOf, h]

theorem statsStep_solved (st : LoopState) (s : Submission) :
    (statsStep st s).solved_problems =
      if verdictOf s = "OK" then insertIfAbsent st.solved_problems (keyOf s)
      else st.solved_problems := by
  by_cases h : s.verdict.getD "UNKNOWN" = "OK" <;>
    simp [statsStep, keyOf, verdictOf, h]

theorem statsStep_first (st : LoopState) (s : Submission) :
    (statsStep st s).first_attempt_solved =
      if verdictOf s = "OK" ∧ lookupA st.problem_first_submission (keyOf s) = none
      then insertIfAbsent st.first_attempt_solved (keyOf s)
      else st.first_attempt_solved := by
  by_cases h : s.verdict.getD "UNKNOWN" = "OK"
  · by_cases h2 : lookupA st.problem_first_submission (keyOf s) = none <;>
      simp [statsStep, keyOf, verdictOf, h, h2]
  · simp [statsStep, keyOf, verdictOf, h]

theorem statsStep_difficulty (st : LoopState) (s : Submission) :
    (statsStep st s).difficulty_solved =
      if verdictOf s = "OK" then
        (match s.problem.rating with
         | some r => if r ≠ 0 then bump st.difficulty_solved r else st.difficulty_solved
         | none => st.difficulty_solved)
      else st.difficulty_solved := by
  by_cases h : s.verdict.getD "UNKNOWN" = "OK" <;>
    simp [statsStep, verdictOf, h]

theorem statsStep_topic (st : LoopState) (s : Submission) :
    (statsStep st s).topic_solved =
      if verdictOf s = "OK" then s.problem.tags.foldl bump st.topic_solved
      else st.topic_solved := by
  by_cases h : s.verdict.getD "UNKNOWN" = "OK" <;>
    simp [statsStep, verdictOf, h]

/-! ### Projections of `calculate_stats` -/

theorem calculate_stats_total (subs : List Submission) :
    (calculate_stats subs).total_submissions = subs.length := rfl

theorem calculate_stats_accepted (subs : List Submission) :
    (calculate_stats subs).accepted_count = (statsLoop subs).accepted_count := rfl

theorem calculate_stats_counter (subs : List Submission) :
    (calculate_stats subs).verdict_counter = (statsLoop subs).verdict_counter := rfl

theorem calculate_stats_unique_attempted (subs : List Submission) :
    (calculate_stats subs).unique_attempted =
      (statsLoop subs).attempted_problems.length := rfl

theorem calculate_stats_unique_solved (subs : List Submission) :
    (calculate_stats subs).unique_solved =
      (statsLoop subs).solved_problems.length := rfl

theorem calculate_stats_first (subs : List Submission) :
    (calculate_stats subs).first_attempt_solved =
      (statsLoop subs).first_attempt_solved.length := rfl

theorem calculate_stats_contests (subs : List Submission) :
    (calculate_stats subs).contests_participated =
      (statsLoop subs).contests_participated.length := rfl

theorem calculate_stats_difficulty (subs : List Submission) :
    (calculate_stats subs).difficulty_solved =
      (statsLoop subs).difficulty_solved := rfl

theorem calculate_stats_topic (subs : List Submission) :
    (calculate_stats subs).topic_solved = (statsLoop subs).topic_solved := rfl

theorem calculate_stats_rate (subs : List Submission) :
    (calculate_stats subs).problem_solving_rate =
      if (statsLoop subs).attempted_problems.length ≠ 0 then
        round2 ((((statsLoop subs).solved_problems.length : ℚ) /
          ((statsLoop subs).attempted_problems.length : ℚ)) * 100)
      else 0 := rfl

/-! ### Fold lemmas for the submission loop -/

theorem foldl_statsStep_counter_sum (subs : List Submission) (st : LoopState) :
    (((subs.foldl statsStep st).verdict_counter.map Prod.snd).sum)
      = ((st.verdict_counter.map Prod.snd).sum) + subs.length := by
  induction subs generalizing st with
  | nil => simp
  | cons s rest ih =>
    simp only [List.foldl_cons, ih, statsStep_counter, bump_sum, List.length_cons]
    omega

theorem foldl_statsStep_counter_lookup (subs : List Submission) (st : LoopState)
    (v : String) :
    lookupCount (subs.foldl statsStep st).verdict_counter v
      = lookupCount st.verdict_counter v
        + (subs.countP (fun s => verdictOf s = v)) := by
  induction subs generalizing st with
  | nil => simp
  | cons s rest ih =>
    simp only [List.foldl_cons, ih, statsStep_counter, lookupCount_bump,
      List.countP_cons]
    by_cases h : verdictOf s = v <;> simp [h] <;> omega

theorem foldl_statsStep_accepted (subs : List Submission) (st : LoopState) :
    (subs.foldl statsStep st).accepted_count
      = st.accepted_count + subs.countP (fun s => verdictOf s = "OK") := by
  induction subs generalizing st with
  | nil => simp
  | cons s rest ih =>
    simp only [List.foldl_cons, ih, statsStep_accepted, List.countP_cons]
    by_cases h : verdictOf s = "OK" <;> simp [h] <;> omega

theorem verdictOf_eq_unknown (s : Submission) :
    verdictOf s = "UNKNOWN" ↔ s.verdict = none ∨ s.verdict = some "UNKNOWN" := by
  cases h : s.verdict <;> simp [verdictOf, h, eq_comm]

/-- C2: every submission is tallied exactly once in `verdict_counter`
(its values sum to `total_submissions`), a submission without a verdict
field is counted under the sentinel `"UNKNOWN"`, and
`0 ≤ accepted_count ≤ total_submissions`. -/
theorem verdict_tally_counts_each_submission_once (subs : List Submission) :
    ((calculate_stats subs).verdict_counter.map Prod.snd).sum
        = (calculate_stats subs).total_submissions
      ∧ lookupCount (calculate_stats subs).verdict_counter "UNKNOWN"
        = (subs.filter
            (fun s => s.verdict = none ∨ s.verdict = some "UNKNOWN")).length
      ∧ 0 ≤ (calculate_stats subs).accepted_count
      ∧ (calculate_stats subs).accepted_count
        ≤ (calculate_stats subs).total_submissions := by
  refine ⟨?_, ?_, Nat.zero_le _, ?_⟩
  · rw [calculate_stats_counter, calculate_stats_total, statsLoop,
      foldl_statsStep_counter_sum]
    simp [initState]
  · rw [calculate_stats_counter, statsLoop, foldl_statsStep_counter_lookup]
    have hp : (fun s => decide (verdictOf s = "UNKNOWN"))
        = (fun s : Submission =>
            decide (s.verdict = none ∨ s.verdict = some "UNKNOWN")) := by
      funext s
      simp only [decide_eq_decide]
      exact verdictOf_eq_unknown s
    rw [List.countP_eq_length_filter]
    simp only [initState, lookupCount, Nat.zero_add]
    exact congrArg List.length (congrFun (congrArg List.filter hp) subs)
  · rw [calculate_stats_accepted, calculate_stats_total, statsLoop,
      foldl_statsStep_accepted]
    simp only [initState, Nat.zero_add]
    exact List.countP_le_length _

/-! ### Set invariants of the submission loop -/

theorem length_le_of_nodup_subset {α : Type} [DecidableEq α]
    {l₁ l₂ : List α} (h₁ : l₁.Nodup) (h : l₁ ⊆ l₂) : l₁.length ≤ l₂.length := by
  have hsub : l₁.toFinset ⊆ l₂.toFinset := by
    intro a ha
    rw [List.mem_toFinset] at ha ⊢
    exact h ha
  calc l₁.length = l₁.toFinset.card := (List.toFinset_card_of_nodup h₁).symm
    _ ≤ l₂.toFinset.card := Finset.card_le_card hsub
    _ ≤ l₂.length := l₂.toFinset_card_le

/-- The set-shaped invariants maintained by the loop of `calculate_stats`. -/
def SetInv (st : LoopState) : Prop :=
  st.attempted_problems.Nodup ∧ st.solved_problems.Nodup ∧
    st.first_attempt_solved.Nodup ∧ st.contests_participated.Nodup ∧
    st.first_attempt_solved ⊆ st.solved_problems ∧
    st.solved_problems ⊆ st.attempted_problems

theorem setInv_init : SetInv initState := by
  refine ⟨?_, ?_, ?_, ?_, ?_, ?_⟩ <;> simp [initState]

theorem setInv_step (st : LoopState) (s : Submission) (h : SetInv st) :
    SetInv (statsStep st s) := by
  obtain ⟨ha, hs, hf, hc, hfs, hsa⟩ := h
  refine ⟨?_, ?_, ?_, ?_, ?_, ?_⟩
  · rw [statsStep_attempted]
    exact nodup_insertIfAbsent _ _ ha
  · rw [statsStep_solved]
    split
    · exact nodup_insertIfAbsent _ _ hs
    · exact hs
  · rw [statsStep_first]
    split
    · exact nodup_insertIfAbsent _ _ hf
    · exact hf
  · rw [statsStep_contests]
    exact nodup_insertIfAbsent _ _ hc
  · rw [statsStep_first, statsStep_solved]
    by_cases hOK : verdictOf s = "OK"
    · simp only [hOK, if_true, true_and]
      split
      · intro x hx
        rw [mem_insertIfAbsent] at hx ⊢
        rcases hx with hx | rfl
        · exact Or.inl (hfs hx)
        · exact Or.inr rfl
      · intro x hx
        exact subset_insertIfAbsent _ _ (hfs hx)
    · simp only [hOK, if_false, false_and]
      exact hfs
  · rw [statsStep_solved, statsStep_attempted]
    by_cases hOK : verdictOf s = "OK"
    · simp only [hOK, if_true]
      intro x hx
      rw [mem_insertIfAbsent] at hx ⊢
      rcases hx with hx | rfl
      · exact Or.inl (hsa hx)
      · exact Or.inr rfl
    · simp only [hOK, if_false]
      intro x hx
      exact subset_insertIfAbsent _ _ (hsa hx)

theorem setInv_foldl (subs : List Submission) (st : LoopState) (h : SetInv st) :
    SetInv (subs.foldl statsStep st) := by
  induction subs generalizing st with
  | nil => exact h
  | cons s rest ih => exact ih _ (setInv_step st s h)

theorem setInv_statsLoop (subs : List Submission) : SetInv (statsLoop subs) :=
  setInv_foldl subs initState setInv_init

/-- C3: `first_attempt_solved ≤ unique_solved ≤ unique_attempted` for every
submission list: a `ProblemID` solved on its first submission is solved, and
a solved `ProblemID` was attempted. -/
theorem first_attempt_le_solved_le_attempted (subs : List Submission) :
    (calculate_stats subs).first_attempt_solved
        ≤ (calculate_stats subs).unique_solved
      ∧ (calculate_stats subs).unique_solved
        ≤ (calculate_stats subs).unique_attempted := by
  obtain ⟨_, hs, hf, _, hfs, hsa⟩ := setInv_statsLoop subs
  rw [calculate_stats_first, calculate_stats_unique_solved,
    calculate_stats_unique_attempted]
  exact ⟨length_le_of_nodup_subset hf hfs, length_le_of_nodup_subset hs hsa⟩

/-! ### Bounds for the rounding model -/

theorem roundHalfEven_nonneg (q : ℚ) (hq : 0 ≤ q) : 0 ≤ roundHalfEven q := by
  have h0 : (0 : ℤ) ≤ ⌊q⌋ := Int.le_floor.mpr (by exact_mod_cast hq)
  unfold roundHalfEven
  split_ifs <;> omega

theorem roundHalfEven_le (q : ℚ) (n : ℤ) (h : q ≤ n) : roundHalfEven q ≤ n := by
  have hfl : ⌊q⌋ ≤ n := by
    have h2 := Int.floor_le_floor h
    simpa using h2
  have hq : (⌊q⌋ : ℚ) ≤ q := Int.floor_le q
  have hcast : ∀ m : ℤ, (⌊q⌋ : ℚ) < (m : ℚ) → ⌊q⌋ < m := fun m hm => by
    exact_mod_cast hm
  unfold roundHalfEven
  split_ifs with h1 h2 h3
  · exact hfl
  · have hlt : (⌊q⌋ : ℚ) < q := by linarith
    have := hcast n (lt_of_lt_of_le hlt h)
    omega
  · exact hfl
  · have hge : q - ⌊q⌋ ≥ 1/2 := le_of_not_lt h1
    have hlt : (⌊q⌋ : ℚ) < q := by linarith
    have := hcast n (lt_of_lt_of_le hlt h)
    omega

theorem round2_nonneg (q : ℚ) (h : 0 ≤ q) : 0 ≤ round2 q := by
  unfold round2
  apply div_nonneg _ (by norm_num)
  have h2 := roundHalfEven_nonneg (q * 100) (by positivity)
  exact_mod_cast h2

theorem round2_le_100 (q : ℚ) (h : q ≤ 100) : round2 q ≤ 100 := by
  unfold round2
  rw [div_le_iff (by norm_num : (0 : ℚ) < 100)]
  have h2 : roundHalfEven (q * 100) ≤ (10000 : ℤ) := by
    apply roundHalfEven_le
    push_cast
    linarith
  calc (roundHalfEven (q * 100) : ℚ) ≤ (10000 : ℚ) := by exact_mod_cast h2
    _ = 100 * 100 := by norm_num

/-- The three submissions of the spec's §8 scenario. -/
def demoSubs : List Submission :=
  [⟨⟨some 1, some "A", none, []⟩, some "OK"⟩,
   ⟨⟨some 1, some "A", none, []⟩, some "WRONG_ANSWER"⟩,
   ⟨⟨some 2, some "B", none, []⟩, some "WRONG_ANSWER"⟩]

/-- C4: `problem_solving_rate` equals
`round(100 * unique_solved / unique_attempted, 2)` when
`unique_attempted > 0`, is exactly `0` when `unique_attempted = 0`, and
always lies in `[0, 100]`. -/
theorem problem_solving_rate_spec (subs : List Submission) :
    ((calculate_stats subs).unique_attempted ≠ 0 →
        (calculate_stats subs).problem_solving_rate
          = round2 (100 * ((calculate_stats subs).unique_solved : ℚ)
              / ((calculate_stats subs).unique_attempted : ℚ)))
      ∧ ((calculate_stats subs).unique_attempted = 0 →
          (calculate_stats subs).problem_solving_rate = 0)
      ∧ 0 ≤ (calculate_stats subs).problem_solving_rate
      ∧ (calculate_stats subs).problem_solving_rate ≤ 100 := by
  obtain ⟨_, hs, _, _, _, hsa⟩ := setInv_statsLoop subs
  have hle : (statsLoop subs).solved_problems.length
      ≤ (statsLoop subs).attempted_problems.length :=
    length_le_of_nodup_subset hs hsa
  rw [calculate_stats_rate, calculate_stats_unique_attempted,
    calculate_stats_unique_solved]
  by_cases ha : (statsLoop subs).attempted_problems.length = 0
  · simp [ha]
  · have hapos : (0 : ℚ) < ((statsLoop subs).attempted_problems.length : ℚ) := by
      exact_mod_cast Nat.pos_of_ne_zero ha
    have hform : (((statsLoop subs).solved_problems.length : ℚ) /
          ((statsLoop subs).attempted_problems.length : ℚ)) * 100
        = 100 * ((statsLoop subs).solved_problems.length : ℚ)
          / ((statsLoop subs).attempted_problems.length : ℚ) := by
      ring
    have hq0 : (0 : ℚ) ≤ (((statsLoop subs).solved_problems.length : ℚ) /
        ((statsLoop subs).attempted_problems.length : ℚ)) * 100 := by positivity
    have hq100 : (((statsLoop subs).solved_problems.length : ℚ) /
        ((statsLoop subs).attempted_problems.length : ℚ)) * 100 ≤ 100 := by
      have hdiv : ((statsLoop subs).solved_problems.length : ℚ) /
          ((statsLoop subs).attempted_problems.length : ℚ) ≤ 1 := by
        rw [div_le_one hapos]
        exact_mod_cast hle
      linarith
    refine ⟨fun _ => ?_, fun h0 => absurd h0 ha, ?_, ?_⟩
    · rw [if_pos ha, hform]
    · rw [if_pos ha]
      exact round2_nonneg _ hq0
    · rw [if_pos ha]
      exact round2_le_100 _ hq100

/-- Witness for C4 at the spec's §8 scenario. -/
theorem problem_solving_rate_spec_witness :
    (calculate_stats demoSubs).unique_attempted ≠ 0
      ∧ (calculate_stats demoSubs).problem_solving_rate
        = round2 (100 * ((calculate_stats demoSubs).unique_solved : ℚ)
            / ((calculate_stats demoSubs).unique_attempted : ℚ)) :=
  ⟨by decide, (problem_solving_rate_spec demoSubs).1 (by decide)⟩

/-! ### Malformed problem keys (C1) -/

theorem attempted_mono_foldl (subs : List Submission) (st : LoopState)
    (x : ProblemID) (h : x ∈ st.attempted_problems) :
    x ∈ (subs.foldl statsStep st).attempted_problems := by
  induction subs generalizing st with
  | nil => exact h
  | cons s rest ih =>
    refine ih (statsStep st s) ?_
    rw [statsStep_attempted]
    exact subset_insertIfAbsent _ _ h

/-- A submission whose problem lacks `contestId`: `calculate_stats` does not
raise; it keys the record as `(None, "A")` and returns a normal record. -/
theorem missing_contest_id_succeeds_counterexample :
    (statsLoop [⟨⟨none, some "A", none, []⟩, some "OK"⟩]).attempted_problems
        = [(none, some "A")]
      ∧ (calculate_stats [⟨⟨none, some "A", none, []⟩, some "OK"⟩]).unique_attempted = 1
      ∧ (calculate_stats [⟨⟨none, some "A", none, []⟩, some "OK"⟩]).accepted_count = 1 := by
  decide

/-- Auxiliary: every processed record's key is in `attempted_problems`,
from any start state. -/
theorem keyOf_mem_attempted_foldl (subs : List Submission) (st : LoopState)
    (s : Submission) (h : s ∈ subs) :
    keyOf s ∈ (subs.foldl statsStep st).attempted_problems := by
  induction subs generalizing st with
  | nil => cases h
  | cons a rest ih =>
    rcases List.mem_cons.mp h with rfl | hmem
    · rw [List.foldl_cons]
      apply attempted_mono_foldl
      rw [statsStep_attempted]
      exact self_mem_insertIfAbsent _ _
    · rw [List.foldl_cons]
      exact ih _ hmem

/-- C1 (amended): `calculate_stats` never rejects a record whose problem
lacks `contestId` or `index`; every record, malformed or not, is silently
keyed by `(problem.get('contestId'), problem.get('index'))` and contributes
that key to `attempted_problems`. -/
theorem every_record_is_keyed_not_rejected (subs : List Submission)
    (s : Submission) (h : s ∈ subs) :
    keyOf s ∈ (statsLoop subs).attempted_problems :=
  keyOf_mem_attempted_foldl subs initState s h

/-- Witness for C1 (amended): the first record of the §8 scenario. -/
theorem every_record_is_keyed_not_rejected_witness :
    keyOf ⟨⟨some 1, some "A", none, []⟩, some "OK"⟩
      ∈ (statsLoop demoSubs).attempted_problems :=
  every_record_is_keyed_not_rejected demoSubs
    ⟨⟨some 1, some "A", none, []⟩, some "OK"⟩ (by decide)

/-! ### Difficulty and topic accumulation (C5) -/

theorem foldl_statsStep_difficulty (subs : List Submission) (st : LoopState)
    (r : Int) (hr : r ≠ 0) :
    lookupCount (subs.foldl statsStep st).difficulty_solved r
      = lookupCount st.difficulty_solved r
        + subs.countP (fun s => verdictOf s = "OK" ∧ s.problem.rating = some r) := by
  induction subs generalizing st with
  | nil => simp
  | cons s rest ih =>
    rw [List.foldl_cons, ih, List.countP_cons]
    have hstep : lookupCount (statsStep st s).difficulty_solved r
        = lookupCount st.difficulty_solved r
          + (if verdictOf s = "OK" ∧ s.problem.rating = some r then 1 else 0) := by
      rw [statsStep_difficulty]
      by_cases hOK : verdictOf s = "OK"
      · simp only [hOK, if_true, true_and]
        cases hrat : s.problem.rating with
        | none => simp [hrat]
        | some r' =>
          by_cases hz : r' = 0
          · subst hz
            have h0 : ¬ ((0 : Int) = r) := fun h0 => hr h0.symm
            simp [h0]
          · by_cases hrr : r' = r
            · subst hrr
              simp [hz, lookupCount_bump]
            · simp [hz, hrr, lookupCount_bump]
      · simp [hOK]
    rw [hstep]
    by_cases hc : verdictOf s = "OK" ∧ s.problem.rating = some r <;>
      simp [hc] <;> omega

theorem foldl_statsStep_topic (subs : List Submission) (st : LoopState)
    (t : String) :
    lookupCount (subs.foldl statsStep st).topic_solved t
      = lookupCount st.topic_solved t
        + ((subs.filter (fun s => verdictOf s = "OK")).map
            (fun s => s.problem.tags.count t)).sum := by
  induction subs generalizing st with
  | nil => simp
  | cons s rest ih =>
    rw [List.foldl_cons, ih, List.filter_cons]
    have hstep : lookupCount (statsStep st s).topic_solved t
        = lookupCount st.topic_solved t
          + (if verdictOf s = "OK" then s.problem.tags.count t else 0) := by
      rw [statsStep_topic]
      by_cases hOK : verdictOf s = "OK"
      · simp [hOK, lookupCount_foldl_bump]
      · simp [hOK]
    rw [hstep]
    by_cases hOK : verdictOf s = "OK" <;> simp [hOK] <;> omega

/-- An accepted submission whose problem carries the rating `0`: Python's
`if rating:` is false for `0`, so `difficulty_solved` is not incremented,
although the problem carries a rating. -/
theorem zero_rating_not_counted_counterexample :
    (calculate_stats [⟨⟨some 1, some "A", some 0, []⟩, some "OK"⟩]).difficulty_solved = []
      ∧ lookupCount
          (calculate_stats [⟨⟨some 1, some "A", some 0, []⟩, some "OK"⟩]).difficulty_solved 0
        = 0
      ∧ (calculate_stats [⟨⟨some 1, some "A", some 0, []⟩, some "OK"⟩]).accepted_count = 1 := by
  decide

/-- C5 (amended): for every nonzero rating `r` (`if rating:` is Python
truthiness, false for `0`), `difficulty_solved[r]` counts every submission
with verdict `OK` whose problem carries rating `r` — not only the first
accepted one per problem — and `topic_solved[t]` counts one increment per
occurrence of `t` in the tag list of every `OK` submission. -/
theorem difficulty_topic_count_every_ok_submission (subs : List Submission)
    (r : Int) (t : String) (hr : r ≠ 0) :
    lookupCount (calculate_stats subs).difficulty_solved r
        = (subs.filter
            (fun s => verdictOf s = "OK" ∧ s.problem.rating = some r)).length
      ∧ lookupCount (calculate_stats subs).topic_solved t
        = ((subs.filter (fun s => verdictOf s = "OK")).map
            (fun s => s.problem.tags.count t)).sum := by
  constructor
  · rw [calculate_stats_difficulty, statsLoop, foldl_statsStep_difficulty _ _ _ hr,
      List.countP_eq_length_filter]
    simp [initState, lookupCount]
  · rw [calculate_stats_topic, statsLoop, foldl_statsStep_topic]
    simp [initState, lookupCount]

/-- A problem accepted twice, carrying rating 800 and tag `"math"`. -/
def reacceptedSubs : List Submission :=
  [⟨⟨some 1, some "A", some 800, ["math"]⟩, some "OK"⟩,
   ⟨⟨some 1, some "A", some 800, ["math"]⟩, some "OK"⟩]

/-- Witness for C5 (amended): a re-accepted problem contributes one
increment per accepted submission, hence counts of 2. -/
theorem difficulty_topic_count_every_ok_submission_witness :
    lookupCount (calculate_stats reacceptedSubs).difficulty_solved 800 = 2
      ∧ lookupCount (calculate_stats reacceptedSubs).topic_solved "math" = 2 := by
  have h := difficulty_topic_count_every_ok_submission reacceptedSubs 800 "math"
    (by decide)
  refine ⟨?_, ?_⟩
  · rw [h.1]; decide
  · rw [h.2]; decide

/-! ### Contest participation count (C10) -/

theorem foldl_statsStep_attempted_toFinset (subs : List Submission)
    (st : LoopState) :
    (subs.foldl statsStep st).attempted_problems.toFinset
      = st.attempted_problems.toFinset ∪ (subs.map keyOf).toFinset := by
  induction subs generalizing st with
  | nil => simp
  | cons s rest ih =>
    rw [List.foldl_cons, ih, statsStep_attempted, toFinset_insertIfAbsent]
    simp [Finset.insert_union, Finset.union_insert]

theorem foldl_statsStep_contests_toFinset (subs : List Submission)
    (st : LoopState) :
    (subs.foldl statsStep st).contests_participated.toFinset
      = st.contests_participated.toFinset
        ∪ (subs.map (fun s => s.problem.contestId)).toFinset := by
  induction subs generalizing st with
  | nil => simp
  | cons s rest ih =>
    rw [List.foldl_cons, ih, statsStep_contests, toFinset_insertIfAbsent]
    simp [Finset.insert_union, Finset.union_insert]

/-- C10: the undocumented `contests_participated` field equals the number
of distinct `contestId` values across all submissions (a missing
`contestId` counting as the distinct value `None`), and it never exceeds
`unique_attempted`. -/
theorem contests_participated_counts_distinct_contest_ids
    (subs : List Submission) :
    (calculate_stats subs).contests_participated
        = (subs.map (fun s => s.problem.contestId)).toFinset.card
      ∧ (calculate_stats subs).contests_participated
        ≤ (calculate_stats subs).unique_attempted := by
  obtain ⟨ha, _, _, hc, _, _⟩ := setInv_statsLoop subs
  have hcF : (statsLoop subs).contests_participated.toFinset
      = (subs.map (fun s => s.problem.contestId)).toFinset := by
    rw [statsLoop, foldl_statsStep_contests_toFinset]
    simp [initState]
  have haF : (statsLoop subs).attempted_problems.toFinset
      = (subs.map keyOf).toFinset := by
    rw [statsLoop, foldl_statsStep_attempted_toFinset]
    simp [initState]
  have hmap : subs.map (fun s => s.problem.contestId)
      = (subs.map keyOf).map Prod.fst := by
    rw [List.map_map]
    rfl
  constructor
  · rw [calculate_stats_contests, ← List.toFinset_card_of_nodup hc, hcF]
  · have himg : ((subs.map keyOf).map Prod.fst).toFinset
        = (subs.map keyOf).toFinset.image Prod.fst := by
      ext a
      simp
    rw [calculate_stats_contests, calculate_stats_unique_attempted,
      ← List.toFinset_card_of_nodup hc, ← List.toFinset_card_of_nodup ha,
      hcF, haF, hmap, himg]
    exact Finset.card_image_le

/-! ### Division classification (C6) -/

theorem analyze_contests_total (l : List RatingChange) :
    (analyze_contests l).total_contests = l.length := rfl

theorem analyze_contests_skipped (l : List RatingChange) :
    (analyze_contests l).contests_skipped = "Not Available" := rfl

theorem analyze_contests_best (l : List RatingChange) :
    (analyze_contests l).best_rank_by_division
      = (l.foldl analyzeStep ⟨[], 0, none⟩).best_rank_by_division := rfl

theorem analyze_contests_overall (l : List RatingChange) :
    (analyze_contests l).best_rank_overall
      = (l.foldl analyzeStep ⟨[], 0, none⟩).best_rank_overall := rfl

theorem analyze_contests_highest (l : List RatingChange) :
    (analyze_contests l).highest_rating
      = (l.foldl analyzeStep ⟨[], 0, none⟩).highest_rating := rfl

/-- C6: division labels are assigned by substring containment with strict
priority `Div. 1` over `Div. 2` over `Div. 3` over `Other`: only the first
matching rule applies, so `"Div. 1 vs Div. 2"` — which does contain
`"Div. 2"` — classifies as `Div. 1`, also through `analyze_contests`. -/
theorem division_classification_priority :
    (∀ name, strContains name "Div. 1" = true →
        classifyDivision name = "Div. 1")
      ∧ (∀ name, strContains name "Div. 1" = false →
          strContains name "Div. 2" = true → classifyDivision name = "Div. 2")
      ∧ (∀ name, strContains name "Div. 1" = false →
          strContains name "Div. 2" = false →
          strContains name "Div. 3" = true → classifyDivision name = "Div. 3")
      ∧ (∀ name, strContains name "Div. 1" = false →
          strContains name "Div. 2" = false →
          strContains name "Div. 3" = false → classifyDivision name = "Other")
      ∧ strContains "Div. 1 vs Div. 2" "Div. 2" = true
      ∧ classifyDivision "Div. 1 vs Div. 2" = "Div. 1"
      ∧ (analyze_contests [⟨"Div. 1 vs Div. 2", 5, 1600⟩]).best_rank_by_division
        = [("Div. 1", 5)] := by
  refine ⟨?_, ?_, ?_, ?_, ?_, ?_, ?_⟩
  · intro name h1
    simp [classifyDivision, h1]
  · intro name h1 h2
    simp [classifyDivision, h1, h2]
  · intro name h1 h2 h3
    simp [classifyDivision, h1, h2, h3]
  · intro name h1 h2 h3
    simp [classifyDivision, h1, h2, h3]
  · decide
  · decide
  · decide

/-- Witness for C6 at the contest name the spec singles out. -/
theorem division_classification_priority_witness :
    classifyDivision "Div. 1 vs Div. 2" = "Div. 1" :=
  division_classification_priority.1 "Div. 1 vs Div. 2" (by decide)

/-! ### Order independence of `analyze_contests` (C7) -/

theorem foldl_perm_of_rightComm {α β : Type} (f : β → α → β)
    (hf : ∀ b x y, f (f b x) y = f (f b y) x)
    {l₁ l₂ : List α} (h : l₁.Perm l₂) : ∀ b, l₁.foldl f b = l₂.foldl f b := by
  induction h with
  | nil => intro b; rfl
  | cons x _ ih =>
    intro b
    simp only [List.foldl_cons]
    exact ih _
  | swap x y l =>
    intro b
    simp only [List.foldl_cons]
    rw [hf]
  | trans _ _ ih₁ ih₂ =>
    intro b
    rw [ih₁ b, ih₂ b]

theorem max_rightComm (b x y : Int) : max (max b x) y = max (max b y) x := by
  rw [max_assoc, max_comm x y, ← max_assoc]

theorem optMin_some (b r : Int) : optMin (some b) r = some (min b r) := by
  show (if r < b then some r else some b) = some (min b r)
  rcases lt_or_ge r b with h | h
  · rw [if_pos h, min_eq_right h.le]
  · rw [if_neg (not_lt.mpr h), min_eq_left h]

theorem optMin_rightComm (o : Option Int) (x y : Int) :
    optMin (optMin o x) y = optMin (optMin o y) x := by
  cases o with
  | none =>
    show optMin (some x) y = optMin (some y) x
    rw [optMin_some, optMin_some, min_comm]
  | some b =>
    rw [optMin_some, optMin_some, optMin_some, optMin_some, min_right_comm]

theorem analyze_fold_highest (l : List RatingChange) (st : AnalyzeState) :
    (l.foldl analyzeStep st).highest_rating
      = (l.map (fun e => e.newRating)).foldl max st.highest_rating := by
  induction l generalizing st with
  | nil => rfl
  | cons e rest ih =>
    simp only [List.foldl_cons, List.map_cons, ih]
    rfl

theorem analyze_fold_overall (l : List RatingChange) (st : AnalyzeState) :
    (l.foldl analyzeStep st).best_rank_overall
      = (l.map (fun e => e.rank)).foldl optMin st.best_rank_overall := by
  induction l generalizing st with
  | nil => rfl
  | cons e rest ih =>
    simp only [List.foldl_cons, List.map_cons, ih]
    rfl

theorem lookupA_updateDivRank (m : List (String × Int)) (k d : String) (r : Int) :
    lookupA (updateDivRank m k r) d
      = if k = d then optMin (lookupA m d) r else lookupA m d := by
  induction m with
  | nil =>
    by_cases h : k = d <;> simp [updateDivRank, lookupA, optMin, h]
  | cons p rest ih =>
    obtain ⟨k', b⟩ := p
    by_cases hk : k' = k
    · subst hk
      by_cases hd : k' = d
      · subst hd
        rcases lt_or_ge r b with hlt | hge
        · simp [updateDivRank, lookupA, optMin, hlt]
        · simp [updateDivRank, lookupA, optMin, not_lt.mpr hge]
      · have hkd : ¬ (k' = d) := hd
        rcases lt_or_ge r b with hlt | hge
        · simp [updateDivRank, lookupA, hlt, hkd]
        · simp [updateDivRank, lookupA, not_lt.mpr hge, hkd]
    · by_cases hd : k' = d
      · subst hd
        have hisk : ¬ (k = k') := fun h2 => hk h2.symm
        simp [updateDivRank, lookupA, hk, hisk]
      · simp [updateDivRank, lookupA, hk, hd, ih]

theorem analyze_fold_division (l : List RatingChange) (st : AnalyzeState)
    (d : String) :
    lookupA (l.foldl analyzeStep st).best_rank_by_division d
      = ((l.filter (fun e => classifyDivision e.contestName = d)).map
          (fun e => e.rank)).foldl optMin
            (lookupA st.best_rank_by_division d) := by
  induction l generalizing st with
  | nil => rfl
  | cons e rest ih =>
    rw [List.foldl_cons, ih, List.filter_cons]
    have hbest : (analyzeStep st e).best_rank_by_division
        = updateDivRank st.best_rank_by_division
            (classifyDivision e.contestName) e.rank := rfl
    rw [hbest, lookupA_updateDivRank]
    by_cases hc : classifyDivision e.contestName = d <;> simp [hc]

/-- C7: `analyze_contests` is order-independent: on any permutation of the
rating-change list it returns the same `total_contests`, the same
`contests_skipped` sentinel, the same `best_rank_by_division` as a mapping,
the same `best_rank_overall` and the same `highest_rating`. -/
theorem analyze_contests_permutation_invariant (l₁ l₂ : List RatingChange)
    (h : l₁.Perm l₂) :
    (analyze_contests l₁).total_contests = (analyze_contests l₂).total_contests
      ∧ (analyze_contests l₁).contests_skipped
        = (analyze_contests l₂).contests_skipped
      ∧ (∀ d, lookupA (analyze_contests l₁).best_rank_by_division d
          = lookupA (analyze_contests l₂).best_rank_by_division d)
      ∧ (analyze_contests l₁).best_rank_overall
        = (analyze_contests l₂).best_rank_overall
      ∧ (analyze_contests l₁).highest_rating
        = (analyze_contests l₂).highest_rating := by
  refine ⟨?_, rfl, ?_, ?_, ?_⟩
  · rw [analyze_contests_total, analyze_contests_total, h.length_eq]
  · intro d
    rw [analyze_contests_best, analyze_contests_best, analyze_fold_division,
      analyze_fold_division]
    exact foldl_perm_of_rightComm optMin (fun o x y => optMin_rightComm o x y)
      (((h.filter _)).map _) _
  · rw [analyze_contests_overall, analyze_contests_overall,
      analyze_fold_overall, analyze_fold_overall]
    exact foldl_perm_of_rightComm optMin (fun o x y => optMin_rightComm o x y)
      (h.map _) _
  · rw [analyze_contests_highest, analyze_contests_highest,
      analyze_fold_highest, analyze_fold_highest]
    exact foldl_perm_of_rightComm max (fun b x y => max_rightComm b x y)
      (h.map _) _

/-- The §8 contest scenario and its reversal. -/
def demoChanges : List RatingChange :=
  [⟨"Div. 2 Round", 500, 1400⟩, ⟨"Div. 2 Round 2", 200, 1500⟩]

def demoChangesRev : List RatingChange :=
  [⟨"Div. 2 Round 2", 200, 1500⟩, ⟨"Div. 2 Round", 500, 1400⟩]

/-- Witness for C7 on the §8 scenario and its reversal. -/
theorem analyze_contests_permutation_invariant_witness :
    (analyze_contests demoChanges).highest_rating
        = (analyze_contests demoChangesRev).highest_rating
      ∧ lookupA (analyze_contests demoChanges).best_rank_by_division "Div. 2"
        = lookupA (analyze_contests demoChangesRev).best_rank_by_division
            "Div. 2" := by
  have h := analyze_contests_permutation_invariant demoChanges demoChangesRev
    (List.Perm.swap _ _ _)
  exact ⟨h.2.2.2.2, h.2.2.1 "Div. 2"⟩

/-! ### Rank resolution (C8, C9) -/

theorem rank_stats_global (ui : UserInfo) (users : List RatedUser) :
    (get_user_global_country_rank ui users).global_rank
      = findPos (matchesHandle ui.handle) users := rfl

theorem rank_stats_country (ui : UserInfo) (users : List RatedUser) :
    (get_user_global_country_rank ui users).country_rank
      = findPos (matchesHandle ui.handle)
          (users.filter (fun u => u.country = ui.country)) := rfl

theorem rank_stats_global_pct (ui : UserInfo) (users : List RatedUser) :
    (get_user_global_country_rank ui users).global_percentile
      = (findPos (matchesHandle ui.handle) users).map
          (fun r : Nat =>
            round2 (100 * (1 - ((r : ℚ) - 1) / (users.length : ℚ)))) := rfl

theorem rank_stats_country_pct (ui : UserInfo) (users : List RatedUser) :
    (get_user_global_country_rank ui users).country_percentile
      = (findPos (matchesHandle ui.handle)
            (users.filter (fun u => u.country = ui.country))).map
          (fun r : Nat => round2 (100 * (1 - ((r : ℚ) - 1) /
            ((users.filter (fun u => u.country = ui.country)).length : ℚ)))) := rfl

theorem findPos_eq_none (p : RatedUser → Bool) (l : List RatedUser)
    (h : ∀ u ∈ l, p u = false) : findPos p l = none := by
  induction l with
  | nil => rfl
  | cons u rest ih =>
    have hu : p u = false := h u (List.mem_cons_self u rest)
    have hrest : findPos p rest = none :=
      ih fun v hv => h v (List.mem_cons_of_mem u hv)
    simp [findPos, hu, hrest]

theorem findPos_spec (p : RatedUser → Bool) (l : List RatedUser) (r : Nat)
    (h : findPos p l = some r) :
    1 ≤ r ∧ r ≤ l.length ∧ ∃ u, l.get? (r - 1) = some u ∧ p u = true := by
  induction l generalizing r with
  | nil => cases h
  | cons u rest ih =>
    by_cases hu : p u = true
    · have hr : r = 1 := by
        simp [findPos, hu] at h
        omega
      subst hr
      exact ⟨le_refl 1, by simp, u, rfl, hu⟩
    · have hu' : p u = false := by
        cases hpu : p u
        · rfl
        · exact absurd hpu hu
      have hmap : (findPos p rest).map (· + 1) = some r := by
        simpa [findPos, hu'] using h
      obtain ⟨r', hr', hrr⟩ := Option.map_eq_some'.mp hmap
      obtain ⟨h1, h2, v, hv, hpv⟩ := ih r' hr'
      obtain ⟨k, rfl⟩ : ∃ k, r' = k + 1 := ⟨r' - 1, by omega⟩
      refine ⟨by omega, by simpa using by omega, v, ?_, hpv⟩
      have : r - 1 = k + 1 := by omega
      rw [this, List.get?_cons_succ]
      simpa using hv

theorem findPos_isSome_of_mem (p : RatedUser → Bool) (l : List RatedUser)
    (h : ∃ u ∈ l, p u = true) : ∃ r, findPos p l = some r := by
  induction l with
  | nil =>
    obtain ⟨u, hu, _⟩ := h
    cases hu
  | cons u rest ih =>
    by_cases hu : p u = true
    · exact ⟨1, by simp [findPos, hu]⟩
    · obtain ⟨v, hv, hpv⟩ := h
      rcases List.mem_cons.mp hv with rfl | hvr
      · exact absurd hpv hu
      · obtain ⟨r', hr'⟩ := ih ⟨v, hvr, hpv⟩
        have hu' : p u = false := by
          cases hpu : p u
          · rfl
          · exact absurd hpu hu
        exact ⟨r' + 1, by simp [findPos, hu', hr']⟩

/-- C8: with an empty rated-user list, or when no entry's handle matches
the target handle case-insensitively, every rank and percentile field is
`None`; the function runs to completion and raises nothing. -/
theorem rank_resolver_undefined_on_empty_or_absent (ui : UserInfo)
    (users : List RatedUser)
    (h : users = [] ∨ ∀ u ∈ users, pyLower u.handle ≠ pyLower ui.handle) :
    (get_user_global_country_rank ui users).global_rank = none
      ∧ (get_user_global_country_rank ui users).global_percentile = none
      ∧ (get_user_global_country_rank ui users).country_rank = none
      ∧ (get_user_global_country_rank ui users).country_percentile = none := by
  have hall : ∀ u ∈ users, matchesHandle ui.handle u = false := by
    rcases h with rfl | h
    · intro u hu
      cases hu
    · intro u hu
      simpa [matchesHandle] using h u hu
  have hg : findPos (matchesHandle ui.handle) users = none :=
    findPos_eq_none _ _ hall
  have hc : findPos (matchesHandle ui.handle)
      (users.filter (fun u => u.country = ui.country)) = none :=
    findPos_eq_none _ _ fun u hu => hall u (List.mem_of_mem_filter hu)
  rw [rank_stats_global, rank_stats_global_pct, rank_stats_country,
    rank_stats_country_pct, hg, hc]
  exact ⟨rfl, rfl, rfl, rfl⟩

/-- Witness for C8: the empty rated-user list. -/
theorem rank_resolver_undefined_on_empty_or_absent_witness :
    (get_user_global_country_rank ⟨"tourist", none⟩ []).global_rank = none
      ∧ (get_user_global_country_rank ⟨"tourist", none⟩ []).global_percentile
        = none
      ∧ (get_user_global_country_rank ⟨"tourist", none⟩ []).country_rank = none
      ∧ (get_user_global_country_rank ⟨"tourist", none⟩ []).country_percentile
        = none :=
  rank_resolver_undefined_on_empty_or_absent ⟨"tourist", none⟩ [] (Or.inl rfl)

/-- C9: for a non-empty rated-user list containing the target handle
exactly once (case-insensitively), `global_rank` is the 1-based position of
that entry, `1 ≤ global_rank ≤ total_users`, and `global_percentile` is
`round(100 * (1 - (global_rank - 1) / total_users), 2)`, which lies in
`[0, 100]`. -/
theorem rank_and_percentile_of_unique_match (ui : UserInfo)
    (users : List RatedUser) (hne : users ≠ [])
    (hcount : users.countP (matchesHandle ui.handle) = 1) :
    ∃ r : Nat,
      (get_user_global_country_rank ui users).global_rank = some r
        ∧ 1 ≤ r ∧ r ≤ users.length
        ∧ (∃ u, users.get? (r - 1) = some u ∧ matchesHandle ui.handle u = true)
        ∧ (get_user_global_country_rank ui users).global_percentile
          = some (round2 (100 * (1 - ((r : ℚ) - 1) / (users.length : ℚ))))
        ∧ 0 ≤ round2 (100 * (1 - ((r : ℚ) - 1) / (users.length : ℚ)))
        ∧ round2 (100 * (1 - ((r : ℚ) - 1) / (users.length : ℚ))) ≤ 100 := by
  have hmem : ∃ u ∈ users, matchesHandle ui.handle u = true := by
    have hpos : 0 < users.countP (matchesHandle ui.handle) := by omega
    exact List.countP_pos.mp hpos
  obtain ⟨r, hr⟩ := findPos_isSome_of_mem _ _ hmem
  obtain ⟨h1, h2, u, hu, hpu⟩ := findPos_spec _ _ r hr
  have hnlen : 0 < users.length := List.length_pos.mpr hne
  have hnQ : (0 : ℚ) < (users.length : ℚ) := by exact_mod_cast hnlen
  have hr1 : (1 : ℚ) ≤ (r : ℚ) := by exact_mod_cast h1
  have hrn : ((r : ℚ)) ≤ (users.length : ℚ) := by exact_mod_cast h2
  have hx0 : (0 : ℚ) ≤ ((r : ℚ) - 1) / (users.length : ℚ) :=
    div_nonneg (by linarith) hnQ.le
  have hx1 : ((r : ℚ) - 1) / (users.length : ℚ) ≤ 1 := by
    rw [div_le_one hnQ]
    linarith
  have hq0 : (0 : ℚ) ≤ 100 * (1 - ((r : ℚ) - 1) / (users.length : ℚ)) := by
    nlinarith
  have hq100 : 100 * (1 - ((r : ℚ) - 1) / (users.length : ℚ)) ≤ 100 := by
    nlinarith
  refine ⟨r, ?_, h1, h2, ⟨u, hu, hpu⟩, ?_, round2_nonneg _ hq0,
    round2_le_100 _ hq100⟩
  · rw [rank_stats_global, hr]
  · rw [rank_stats_global_pct, hr, Option.map_some']

def demoUser : UserInfo := ⟨"alice", some "X"⟩

def ratedDemo : List RatedUser := [⟨"Bob", some "Y"⟩, ⟨"Alice", some "X"⟩]

/-- Witness for C9: a two-user list whose second entry matches
case-insensitively. -/
theorem rank_and_percentile_of_unique_match_witness :
    ∃ r : Nat,
      (get_user_global_country_rank demoUser ratedDemo).global_rank = some r
        ∧ 1 ≤ r ∧ r ≤ ratedDemo.length
        ∧ 0 ≤ round2 (100 * (1 - ((r : ℚ) - 1) / (ratedDemo.length : ℚ)))
        ∧ round2 (100 * (1 - ((r : ℚ) - 1) / (ratedDemo.length : ℚ))) ≤ 100 := by
  obtain ⟨r, ha, hb, hc, _, _, hd, he⟩ :=
    rank_and_percentile_of_unique_match demoUser ratedDemo (by decide) (by decide)
  exact ⟨r, ha, hb, hc, hd, he⟩

end CF
